import Mathlib

/-!
Shallow embedding of the Intranet-Backend repository (FastAPI + SQLAlchemy)
and proofs about its behaviour.

The embedding follows the source files:
  * `app/routes/posts.py`  — post listing/get/update, reactions, replies,
    shares, views, and the liked-users / seen-by de-duplication loops;
  * `app/routes/me.py`     — `GET /api/me` and `get_current_user`;
  * `app/routes/auth.py`   — the Microsoft token exchange;
  * `app/models/user.py`, `app/schemas/auth.py` — the user record and the
    `/api/me` response schema.

The ORM row classes of `app/models/post.py` and the response schemas of
`app/schemas/post.py` are imported by `posts.py` but their files are not
part of the source tree; where their contents matter they are modelled
from the specification and marked as such in their doc comments.

The relational store is modelled as explicit lists of rows inside a `DB`
structure; SQL queries become list filters/finds, and HTTP handlers become
functions from `DB` (plus request data) to a result and an updated `DB`.
-/

/-- Python's `str.lower()` as used by the routes; mapped over the
characters so that concrete instances reduce in the kernel. -/
def lowerStr (s : String) : String := ⟨s.data.map Char.toLower⟩

/-- One iteration of the de-duplication loop of `list_posts` / `get_post`
(`app/routes/posts.py`): `if u in acc: acc.remove(u); acc.append(u)`.
Python's `list.remove` deletes the first occurrence, as `List.erase` does. -/
def dedupStep {α : Type} [DecidableEq α] (acc : List α) (u : α) : List α :=
  (if u ∈ acc then acc.erase u else acc) ++ [u]

/-- Running the de-duplication loop over a whole sequence, starting from the
empty accumulator, exactly as the `for` loops in `list_posts` / `get_post` do. -/
def dedupLast {α : Type} [DecidableEq α] (l : List α) : List α :=
  l.foldl dedupStep []

/-- Specification-side characterisation of last-occurrence de-duplication:
keep an element exactly when it does not occur again later in the list, so
each element survives at the position of its last occurrence. -/
def keepLastOcc {α : Type} [DecidableEq α] : List α → List α
  | [] => []
  | x :: xs => if x ∈ xs then keepLastOcc xs else x :: keepLastOcc xs

theorem keepLastOcc_subset {α : Type} [DecidableEq α] (l : List α) :
    keepLastOcc l ⊆ l := by
  induction l with
  | nil => simp [keepLastOcc]
  | cons x xs ih =>
    by_cases hx : x ∈ xs
    · simp only [keepLastOcc, hx, if_true]
      exact fun a ha => List.mem_cons_of_mem _ (ih ha)
    · simp only [keepLastOcc, hx, if_false]
      intro a ha
      rcases List.mem_cons.mp ha with h | h
      · simp [h]
      · exact List.mem_cons_of_mem _ (ih h)

theorem keepLastOcc_nodup {α : Type} [DecidableEq α] (l : List α) :
    (keepLastOcc l).Nodup := by
  induction l with
  | nil => simp [keepLastOcc]
  | cons x xs ih =>
    by_cases hx : x ∈ xs
    · simpa [keepLastOcc, hx] using ih
    · simp only [keepLastOcc, hx, if_false]
      exact List.nodup_cons.mpr
        ⟨fun hmem => hx (keepLastOcc_subset xs hmem), ih⟩

theorem keepLastOcc_eq_self_of_nodup {α : Type} [DecidableEq α]
    {l : List α} (h : l.Nodup) : keepLastOcc l = l := by
  induction l with
  | nil => rfl
  | cons x xs ih =>
    rcases List.nodup_cons.mp h with ⟨hx, hxs⟩
    simp [keepLastOcc, hx, ih hxs]

theorem keepLastOcc_append {α : Type} [DecidableEq α] (a b : List α) :
    keepLastOcc (a ++ b) =
      (keepLastOcc a).filter (fun x => decide (x ∉ b)) ++ keepLastOcc b := by
  induction a with
  | nil => simp [keepLastOcc]
  | cons x xs ih =>
    by_cases hx : x ∈ xs
    · have hx' : x ∈ xs ++ b := List.mem_append_left _ hx
      simp [keepLastOcc, hx, hx', ih]
    · by_cases hb : x ∈ b
      · have hx' : x ∈ xs ++ b := List.mem_append_right _ hb
        simp [keepLastOcc, hx, hx', ih, List.filter_cons, hb]
      · have hx' : x ∉ xs ++ b := by
          simp [List.mem_append, hx, hb]
        simp [keepLastOcc, hx, hx', ih, List.filter_cons, hb]

theorem dedupStep_nodup {α : Type} [DecidableEq α]
    {acc : List α} (h : acc.Nodup) (u : α) : (dedupStep acc u).Nodup := by
  unfold dedupStep
  by_cases hu : u ∈ acc
  · simp only [hu, if_true]
    have herase : (acc.erase u).Nodup := h.erase u
    have hnotin : u ∉ acc.erase u := h.not_mem_erase
    refine List.Nodup.append herase (by simp) ?_
    intro a ha hb
    simp only [List.mem_singleton] at hb
    subst hb
    exact hnotin ha
  · simp only [hu, if_false]
    refine List.Nodup.append h (by simp) ?_
    intro a ha hb
    simp only [List.mem_singleton] at hb
    subst hb
    exact hu ha

theorem filter_erase_of_not_pass {α : Type} [DecidableEq α]
    (p : α → Bool) {x : α} (hx : p x = false) :
    ∀ l : List α, (l.erase x).filter p = l.filter p := by
  intro l
  induction l with
  | nil => rfl
  | cons y ys ih =>
    by_cases hxy : y = x
    · subst hxy
      simp [List.erase_cons, List.filter_cons, hx]
    · have hbe : (y == x) = false := by simp [hxy]
      simp [List.erase_cons, hbe, List.filter_cons, ih]

theorem dedupStep_eq_erase_append {α : Type} [DecidableEq α]
    (acc : List α) (u : α) : dedupStep acc u = acc.erase u ++ [u] := by
  unfold dedupStep
  by_cases hu : u ∈ acc
  · simp [hu]
  · simp [hu, List.erase_of_not_mem hu]

theorem foldl_dedupStep_eq_keepLastOcc {α : Type} [DecidableEq α] :
    ∀ (l acc : List α), acc.Nodup →
      l.foldl dedupStep acc = keepLastOcc (acc ++ l) := by
  intro l
  induction l with
  | nil =>
    intro acc hacc
    simpa using (keepLastOcc_eq_self_of_nodup hacc).symm
  | cons x xs ih =>
    intro acc hacc
    have hstep : (dedupStep acc x).Nodup := dedupStep_nodup hacc x
    have hmain : List.foldl dedupStep acc (x :: xs)
        = keepLastOcc (dedupStep acc x ++ xs) := by
      simpa using ih (dedupStep acc x) hstep
    rw [hmain, dedupStep_eq_erase_append, List.append_assoc,
      List.singleton_append, keepLastOcc_append, keepLastOcc_append,
      keepLastOcc_eq_self_of_nodup (hacc.erase x),
      keepLastOcc_eq_self_of_nodup hacc]
    have hxfail : (fun y => decide (y ∉ x :: xs)) x = false := by simp
    rw [filter_erase_of_not_pass (fun y => decide (y ∉ x :: xs)) hxfail acc]

theorem dedupLast_eq_keepLastOcc {α : Type} [DecidableEq α] (l : List α) :
    dedupLast l = keepLastOcc l := by
  simpa using foldl_dedupStep_eq_keepLastOcc l [] List.nodup_nil

theorem dedupLast_nodup {α : Type} [DecidableEq α] (l : List α) :
    (dedupLast l).Nodup := by
  rw [dedupLast_eq_keepLastOcc]; exact keepLastOcc_nodup l

/-! ## Data model

Row types for the relational store. `app/models/post.py` is referenced by
the routes but absent from the tree, so the row shapes are modelled from
the specification's data-model section; all the behaviour proved below
lives in `app/routes/posts.py`, which is part of the tree. -/

/-- Modelled from the spec: a Post row — id (sequential), title, optional
description, free-text author, optional announce-type tag, and
creation/update timestamps (represented as naturals). -/
structure Post where
  id : Nat
  title : String
  description : Option String
  author : String
  announce_type : Option String
  created_at : Nat
  updated_at : Nat
deriving Repr, DecidableEq

/-- Modelled from the spec: an Attachment row — id, owning post id,
filename, content type, byte size, image flag, raw payload (bytes as
naturals). -/
structure Attachment where
  id : Nat
  post_id : Nat
  filename : String
  content_type : String
  size : Nat
  is_image : Bool
  data : List Nat
deriving Repr, DecidableEq

/-- Modelled from the spec: a Reaction row — id, post id, free-text user
identifier, free-text reaction label (nullable: the routes guard it with
`(r.reaction or '')`). -/
structure Reaction where
  id : Nat
  post_id : Nat
  user : String
  reaction : Option String
deriving Repr, DecidableEq

/-- Modelled from the spec: a Reply row — id, post id, user identifier,
text content. -/
structure Reply where
  id : Nat
  post_id : Nat
  user : String
  content : String
deriving Repr, DecidableEq

/-- Modelled from the spec: a Share row — id, post id, user identifier,
optional platform label. -/
structure Share where
  id : Nat
  post_id : Nat
  user : String
  platform : Option String
deriving Repr, DecidableEq

/-- Modelled from the spec: a PostView row — id, post id, user identifier,
optional viewed-at timestamp (falls back to row id for ordering when
absent). -/
structure PostView where
  id : Nat
  post_id : Nat
  user : String
  viewed_at : Option Nat
deriving Repr, DecidableEq

/-- The user record of `app/models/user.py`: string id (primary key),
email, nullable display name. -/
structure User where
  id : String
  email : String
  name : Option String
deriving Repr, DecidableEq

/-! ## The liked-users and seen-by loops (`app/routes/posts.py`) -/

/-- The label a reaction is compared against `'like'` with:
`(r.reaction or '').lower()` — a null label becomes the empty string. -/
def reactionLabel (r : Reaction) : String := lowerStr (r.reaction.getD "")

/-- The liked-users loop of `list_posts` / `get_post`: iterate the post's
reactions in collection order and, for each reaction whose label lowercases
to `"like"`, move the user to the end of the accumulator (removing a
previous occurrence first). -/
def likedUsersOf (reactions : List Reaction) : List String :=
  reactions.foldl
    (fun acc r => if reactionLabel r == "like" then dedupStep acc r.user else acc)
    []

/-- Python's `getattr(x, 'viewed_at', None) or x.id` sort key: the
viewed-at timestamp when present, else the row id. -/
def viewSortKey (v : PostView) : Nat := v.viewed_at.getD v.id

/-- `sorted(p.views, key=...)`: a stable ascending sort on the view sort
key (Python's `sorted` is stable; `insertionSort` with `≤` on keys is the
same stable order). -/
def sortViews (vs : List PostView) : List PostView :=
  vs.insertionSort (fun a b => viewSortKey a ≤ viewSortKey b)

/-- The seen-by loop of `list_posts` / `get_post`: iterate the views in
sorted order and move each view's user to the end of the accumulator. -/
def seenByOf (views : List PostView) : List String :=
  (sortViews views).foldl (fun acc v => dedupStep acc v.user) []

/-- The sub-sequence of users carried by reactions whose label matches
`"like"`, in collection order — the sequence the liked-users loop
effectively de-duplicates. -/
def likeUserSeq (reactions : List Reaction) : List String :=
  (reactions.filter (fun r => reactionLabel r == "like")).map Reaction.user

theorem foldl_guard_dedupStep {α β : Type} [DecidableEq β]
    (P : α → Bool) (f : α → β) :
    ∀ (l : List α) (acc : List β),
      l.foldl (fun acc r => if P r then dedupStep acc (f r) else acc) acc
        = ((l.filter P).map f).foldl dedupStep acc := by
  intro l
  induction l with
  | nil => intro acc; rfl
  | cons x xs ih =>
    intro acc
    by_cases hx : P x
    · simp [List.filter_cons, hx, List.foldl_cons, ih]
    · simp [List.filter_cons, hx, List.foldl_cons, ih]

theorem likedUsersOf_eq_dedupLast (reactions : List Reaction) :
    likedUsersOf reactions = dedupLast (likeUserSeq reactions) := by
  unfold likedUsersOf likeUserSeq dedupLast
  exact foldl_guard_dedupStep (fun r => reactionLabel r == "like")
    Reaction.user reactions []

theorem seenByOf_eq_dedupLast (views : List PostView) :
    seenByOf views = dedupLast ((sortViews views).map PostView.user) := by
  unfold seenByOf dedupLast
  rw [List.foldl_map]

instance : IsTotal PostView (fun a b => viewSortKey a ≤ viewSortKey b) :=
  ⟨fun _ _ => Nat.le_total _ _⟩

instance : IsTrans PostView (fun a b => viewSortKey a ≤ viewSortKey b) :=
  ⟨fun _ _ _ hab hbc => le_trans hab hbc⟩

/-- C1: over every reaction sequence, `likedUsers` lists each user at most
once (`Nodup`), and equals the last-occurrence filter of the sequence of
users of reactions whose label case-insensitively equals `"like"` — so each
surviving user sits at the position of their last like; a reaction with a
null label gets the empty-string label and never contributes; and the
concrete run `[(A,like),(B,like),(A,like)]` yields `[B, A]`. -/
theorem C1_likedUsers_last_like_dedup :
    (∀ reactions : List Reaction,
        (likedUsersOf reactions).Nodup ∧
        likedUsersOf reactions = keepLastOcc (likeUserSeq reactions)) ∧
    (∀ (i p : Nat) (u : String) (rs : List Reaction),
        likedUsersOf (⟨i, p, u, none⟩ :: rs) = likedUsersOf rs) ∧
    likedUsersOf
        [⟨1, 1, "A", some "like"⟩, ⟨2, 1, "B", some "like"⟩,
         ⟨3, 1, "A", some "like"⟩]
      = ["B", "A"] := by
  refine ⟨fun reactions => ⟨?_, ?_⟩, fun i p u rs => ?_, by decide⟩
  · rw [likedUsersOf_eq_dedupLast]
    exact dedupLast_nodup _
  · rw [likedUsersOf_eq_dedupLast, dedupLast_eq_keepLastOcc]
  · have hlab : reactionLabel ⟨i, p, u, none⟩ = "" := rfl
    have hguard : (reactionLabel ⟨i, p, u, none⟩ == "like") = false := by
      rw [hlab]; decide
    simp only [likedUsersOf, List.foldl_cons, hguard, Bool.false_eq_true,
      if_false]

/-- C2: over every view sequence, `seenBy` lists each user at most once and
equals the last-occurrence filter (by user) of the views sorted ascending
by viewed-at timestamp when present, else row id; the sorted sequence is a
permutation of the stored views and is sorted on that key. A concrete run
with timestamps and an id-fallback row is evaluated. -/
theorem C2_seenBy_sorted_last_dedup :
    (∀ views : List PostView,
        (seenByOf views).Nodup ∧
        seenByOf views = keepLastOcc ((sortViews views).map PostView.user) ∧
        (sortViews views).Perm views ∧
        (sortViews views).Sorted (fun a b => viewSortKey a ≤ viewSortKey b)) ∧
    seenByOf [⟨1, 1, "A", some 5⟩, ⟨2, 1, "B", some 3⟩, ⟨3, 1, "A", some 1⟩]
      = ["B", "A"] ∧
    seenByOf [⟨10, 1, "C", none⟩, ⟨2, 1, "D", some 1⟩] = ["D", "C"] := by
  refine ⟨fun views => ⟨?_, ?_, ?_, ?_⟩, by decide, by decide⟩
  · rw [seenByOf_eq_dedupLast]
    exact dedupLast_nodup _
  · rw [seenByOf_eq_dedupLast, dedupLast_eq_keepLastOcc]
  · exact List.perm_insertionSort _ views
  · exact List.sorted_insertionSort _ views

/-! ## The relational store and the posts endpoints (`app/routes/posts.py`)

SQL queries become list operations: `filter(...)` is a list filter,
`.first()` is `List.find?`, `count()` is the filtered list's length, and
inserts append a fresh row with the next sequential id. -/

/-- The relational store: one row list per table plus the next sequential
row id handed out on insert. -/
structure DB where
  posts : List Post
  attachments : List Attachment
  reactions : List Reaction
  replies : List Reply
  shares : List Share
  views : List PostView
  nextId : Nat
deriving Repr, DecidableEq

/-- `db.query(Post).filter(Post.id == post_id).first()`. -/
def findPost (db : DB) (post_id : Nat) : Option Post :=
  db.posts.find? (fun p => p.id == post_id)

/-- A post's attachment collection (rows of the attachments table owned by
the post, in table order). -/
def postAttachments (db : DB) (pid : Nat) : List Attachment :=
  db.attachments.filter (fun a => a.post_id == pid)

/-- A post's reaction collection, in table order. -/
def postReactions (db : DB) (pid : Nat) : List Reaction :=
  db.reactions.filter (fun r => r.post_id == pid)

/-- A post's reply collection, in table order. -/
def postReplies (db : DB) (pid : Nat) : List Reply :=
  db.replies.filter (fun r => r.post_id == pid)

/-- A post's share collection, in table order. -/
def postShares (db : DB) (pid : Nat) : List Share :=
  db.shares.filter (fun s => s.post_id == pid)

/-- A post's view collection, in table order. -/
def postViews (db : DB) (pid : Nat) : List PostView :=
  db.views.filter (fun v => v.post_id == pid)

/-- Outcome of an HTTP handler: a response body with a status code, or an
error status (an `HTTPException` or a response-validation failure). -/
inductive HttpResult (α : Type) where
  | ok (stat : Nat) (body : α)
  | err (stat : Nat)
deriving Repr, DecidableEq

/-- The status code carried by a handler outcome. -/
def HttpResult.statusCode {α : Type} : HttpResult α → Nat
  | .ok s _ => s
  | .err s => s

/-- The duplicate filter of `add_reaction` / `remove_reaction`:
`Reaction.post_id == post_id, Reaction.user == user,
func.lower(Reaction.reaction) == (reaction or '').lower()`.
SQL `LOWER(NULL)` is `NULL` and `NULL = x` never holds, so a stored row
with a null label never matches. -/
def matchesReaction (post_id : Nat) (user label : String) (r : Reaction) : Bool :=
  r.post_id == post_id && r.user == user &&
    (match r.reaction with
     | some s => lowerStr s == lowerStr label
     | none => false)

/-- `POST /{post_id}/reactions` (`add_reaction`): 404 when the post does
not exist; otherwise return the first stored reaction with the same post,
user and case-insensitively equal label, or insert a fresh row. The route
is declared with `status_code=201`, so both success branches answer 201. -/
def add_reaction (db : DB) (post_id : Nat) (user reaction : String) :
    DB × HttpResult Reaction :=
  match findPost db post_id with
  | none => (db, .err 404)
  | some _ =>
    match db.reactions.find? (matchesReaction post_id user reaction) with
    | some existing => (db, .ok 201 existing)
    | none =>
      let r : Reaction := ⟨db.nextId, post_id, user, some reaction⟩
      ({ db with reactions := db.reactions ++ [r], nextId := db.nextId + 1 },
        .ok 201 r)

/-- `POST /{post_id}/replies` (`add_reply`): 404 when the post does not
exist, else insert and return the reply with status 201. -/
def add_reply (db : DB) (post_id : Nat) (user content : String) :
    DB × HttpResult Reply :=
  match findPost db post_id with
  | none => (db, .err 404)
  | some _ =>
    let r : Reply := ⟨db.nextId, post_id, user, content⟩
    ({ db with replies := db.replies ++ [r], nextId := db.nextId + 1 },
      .ok 201 r)

/-- `POST /{post_id}/shares` (`add_share`): 404 when the post does not
exist, else insert and return the share with status 201. -/
def add_share (db : DB) (post_id : Nat) (user : String)
    (platform : Option String) : DB × HttpResult Share :=
  match findPost db post_id with
  | none => (db, .err 404)
  | some _ =>
    let s : Share := ⟨db.nextId, post_id, user, platform⟩
    ({ db with shares := db.shares ++ [s], nextId := db.nextId + 1 },
      .ok 201 s)

/-- `POST /{post_id}/views` (`add_view`): 404 when the post does not
exist, else always append a view row (no de-duplication) and answer
`{"status": "ok"}` with status 201. The route passes no viewed-at value. -/
def add_view (db : DB) (post_id : Nat) (user : String) :
    DB × HttpResult Unit :=
  match findPost db post_id with
  | none => (db, .err 404)
  | some _ =>
    let v : PostView := ⟨db.nextId, post_id, user, none⟩
    ({ db with views := db.views ++ [v], nextId := db.nextId + 1 },
      .ok 201 ())

/-! ## Response projection (`app/schemas/post.py` is absent from the tree) -/

/-- Modelled from the spec: attachment metadata as serialised in post
responses — the binary payload is never loaded in list views, so the
schema carries everything but the payload. -/
structure AttachmentMeta where
  id : Nat
  post_id : Nat
  filename : String
  content_type : String
  size : Nat
  is_image : Bool
deriving Repr, DecidableEq

/-- `AttachmentMeta.from_orm`. -/
def attachmentMetaOf (a : Attachment) : AttachmentMeta :=
  ⟨a.id, a.post_id, a.filename, a.content_type, a.size, a.is_image⟩

/-- Modelled from the spec: the post response schema shared by create,
get, list and update. `create_post` and `update_post` construct it without
the reply/share counts and liked/seen lists, and `create_post` without
them the call still succeeds, so those fields carry defaults (zero counts,
empty lists) in the schema. -/
structure PostResponse where
  id : Nat
  title : String
  description : Option String
  author : String
  announce_type : Option String
  created_at : Nat
  updated_at : Nat
  attachments : List AttachmentMeta
  reactions : List Reaction
  views_count : Nat := 0
  replies_count : Nat := 0
  shares_count : Nat := 0
  liked_users : List String := []
  seen_by : List String := []
deriving Repr, DecidableEq

/-- Modelled from the spec: the list response — a total count plus the
page of post responses. -/
structure PostListResponse where
  total : Nat
  posts : List PostResponse
deriving Repr, DecidableEq

/-- `GET /{post_id}` (`get_post`): 404 when the post does not exist, else
project the full response: attachment metadata, raw reactions, the three
aggregate counts, and the liked-users / seen-by lists. -/
def get_post (db : DB) (post_id : Nat) : Except Nat PostResponse :=
  match findPost db post_id with
  | none => .error 404
  | some p =>
    .ok {
      id := p.id
      title := p.title
      description := p.description
      author := p.author
      announce_type := p.announce_type
      created_at := p.created_at
      updated_at := p.updated_at
      attachments := (postAttachments db p.id).map attachmentMetaOf
      reactions := postReactions db p.id
      views_count := (postViews db p.id).length
      replies_count := (postReplies db p.id).length
      shares_count := (postShares db p.id).length
      liked_users := likedUsersOf (postReactions db p.id)
      seen_by := seenByOf (postViews db p.id) }

/-- `order_by(Post.created_at.desc())`: descending stable sort on the
creation timestamp. -/
def sortPostsDesc (ps : List Post) : List Post :=
  ps.insertionSort (fun a b => b.created_at ≤ a.created_at)

instance : IsTotal Post (fun a b => b.created_at ≤ a.created_at) :=
  ⟨fun _ _ => (Nat.le_total _ _).symm⟩

instance : IsTrans Post (fun a b => b.created_at ≤ a.created_at) :=
  ⟨fun _ _ _ hab hbc => le_trans hbc hab⟩

/-- `GET /` (`list_posts`): total over the whole posts table; the page is
the descending-by-creation-time order with `offset skip` and
`limit limit`; per post the same projection as `get_post`, with the
aggregate counts coming from one grouped query per metric
(`counts.get(p.id, 0)` equals the per-post filtered count). -/
def list_posts (db : DB) (skip limit : Nat) : PostListResponse :=
  let items := ((sortPostsDesc db.posts).drop skip).take limit
  { total := db.posts.length
    posts := items.map (fun p =>
      { id := p.id
        title := p.title
        description := p.description
        author := p.author
        announce_type := p.announce_type
        created_at := p.created_at
        updated_at := p.updated_at
        attachments := (postAttachments db p.id).map attachmentMetaOf
        reactions := postReactions db p.id
        views_count := (postViews db p.id).length
        replies_count := (postReplies db p.id).length
        shares_count := (postShares db p.id).length
        liked_users := likedUsersOf (postReactions db p.id)
        seen_by := seenByOf (postViews db p.id) }) }

/-- An uploaded file as the update route reads it: filename, content type,
raw bytes. -/
structure UploadFile where
  filename : String
  content_type : String
  data : List Nat
deriving Repr, DecidableEq

/-- The attachment row built from one uploaded file in `update_post`
(`is_image` is the `image/` content-type test; size is the byte count). -/
def attachmentOfUpload (pid i : Nat) (f : UploadFile) : Attachment :=
  ⟨i, pid, f.filename, f.content_type, f.data.length,
    f.content_type.startsWith "image/", f.data⟩

/-- `PUT /{post_id}` (`update_post`): 404 when the post does not exist;
replace exactly the provided fields (`if title is not None: ...`), append
one attachment row per uploaded file, and project the response with
attachment metadata, raw reactions and the views count — the remaining
response fields are not passed and keep their schema defaults. -/
def update_post (db : DB) (post_id : Nat)
    (title description announce_type : Option String)
    (files : List UploadFile) : Except Nat (DB × PostResponse) :=
  match findPost db post_id with
  | none => .error 404
  | some p =>
    let p' : Post :=
      { p with
        title := title.getD p.title
        description := description.or p.description
        announce_type := announce_type.or p.announce_type }
    let newAtts := files.enum.map
      (fun e => attachmentOfUpload post_id (db.nextId + e.1) e.2)
    let db' : DB :=
      { db with
        posts := db.posts.map (fun q => if q.id == post_id then p' else q)
        attachments := db.attachments ++ newAtts
        nextId := db.nextId + files.length }
    .ok (db', {
      id := p'.id
      title := p'.title
      description := p'.description
      author := p'.author
      announce_type := p'.announce_type
      created_at := p'.created_at
      updated_at := p'.updated_at
      attachments := (postAttachments db' p'.id).map attachmentMetaOf
      reactions := postReactions db' p'.id
      views_count := (postViews db' p'.id).length })

/-! ## `/api/me` and the token exchange (`app/routes/me.py`, `app/routes/auth.py`) -/

/-- Outcome of `jwt.decode(token, INTRANET_SECRET_KEY, ...)` on the bearer
token: the decode raises on a malformed token, an invalid signature, or an
expired token (`failure`); on success the handler reads
`payload.get("sub")`, which may be absent. The cryptography itself lives
in the `jose` library, an external collaborator, so the handler is a
function of this outcome. -/
inductive DecodeOutcome where
  | failure
  | success (sub : Option String)
deriving Repr, DecidableEq

/-- `get_current_user` of `app/routes/me.py`: 401 when decoding fails or
the subject claim is falsy (absent or the empty string —
`if not user_id`), 401 when no user row has the subject as id, else the
user row. -/
def get_current_user (outcome : DecodeOutcome) (users : List User) :
    Except Nat User :=
  match outcome with
  | .failure => .error 401
  | .success none => .error 401
  | .success (some uid) =>
    if uid = "" then .error 401
    else
      match users.find? (fun u => u.id == uid) with
      | none => .error 401
      | some u => .ok u

/-- The `me` handler body: the dict
`{"id": user.id, "email": user.email, "name": user.name}` — the stored
name may be null at this point. -/
def me_handler (outcome : DecodeOutcome) (users : List User) :
    Except Nat (String × String × Option String) :=
  match get_current_user outcome users with
  | .error e => .error e
  | .ok u => .ok (u.id, u.email, u.name)

/-- The `/api/me` response schema `UserResponse` of `app/schemas/auth.py`:
id, email and name are all required strings. -/
structure UserResponse where
  id : String
  email : String
  name : String
deriving Repr, DecidableEq

/-- Validation of the handler dict against `UserResponse`
(`response_model=UserResponse`): a null name cannot be a string, so
validation fails. -/
def validateUserResponse (d : String × String × Option String) :
    Option UserResponse :=
  match d.2.2 with
  | none => none
  | some n => some ⟨d.1, d.2.1, n⟩

/-- The full `/api/me` endpoint: the handler dict serialised through the
response model; a response-model validation failure surfaces as a server
error (500), never as a success. -/
def me_endpoint (outcome : DecodeOutcome) (users : List User) :
    Except Nat UserResponse :=
  match me_handler outcome users with
  | .error e => .error e
  | .ok d =>
    match validateUserResponse d with
    | none => .error 500
    | some r => .ok r

/-- `exchange_microsoft_token` of `app/routes/auth.py`, after the identity
provider validated the id token and returned its claims: 400 when the
`preferred_username` claim is falsy, else find the user by exact email or
create one (with a fresh uuid, passed in as `newId`) whose name is the
provider's `name` claim — possibly absent. Token minting is elided. -/
def exchange_microsoft_token (users : List User)
    (email name : Option String) (newId : String) :
    Except Nat (List User × User) :=
  match email with
  | none => .error 400
  | some e =>
    if e = "" then .error 400
    else
      match users.find? (fun u => u.email == e) with
      | some u => .ok (users, u)
      | none =>
        let u : User := ⟨newId, e, name⟩
        .ok (users ++ [u], u)

/-- C4: `/api/me` answers 401 when the bearer token is malformed / has a
bad signature / is expired (decode failure), when the subject claim is
missing, and when no user row carries the subject as id — the failure
branches hold for every stored user list, so in particular regardless of
whether a user with that subject exists; with a valid token and an
existing user the handler returns that user's id, email and name. -/
theorem C4_me_unauthorized_cases :
    (∀ users : List User, me_handler .failure users = .error 401) ∧
    (∀ users : List User, me_handler (.success none) users = .error 401) ∧
    (∀ (users : List User) (uid : String),
        users.find? (fun u => u.id == uid) = none →
        me_handler (.success (some uid)) users = .error 401) ∧
    (∀ (users : List User) (uid : String) (u : User), uid ≠ "" →
        users.find? (fun u => u.id == uid) = some u →
        me_handler (.success (some uid)) users
          = .ok (u.id, u.email, u.name)) := by
  refine ⟨fun users => rfl, fun users => rfl, ?_, ?_⟩
  · intro users uid hfind
    by_cases huid : uid = ""
    · simp [me_handler, get_current_user, huid]
    · simp [me_handler, get_current_user, huid, hfind]
  · intro users uid u huid hfind
    simp [me_handler, get_current_user, huid, hfind]

theorem C4_me_unauthorized_cases_witness :
    me_handler (.success (some "u1")) [⟨"u2", "b@x.com", some "B"⟩]
      = .error 401 ∧
    me_handler (.success (some "u1"))
        [⟨"u1", "a@x.com", some "A"⟩, ⟨"u2", "b@x.com", some "B"⟩]
      = .ok ("u1", "a@x.com", some "A") := by
  constructor
  · exact C4_me_unauthorized_cases.2.2.1 [⟨"u2", "b@x.com", some "B"⟩] "u1"
      (by decide)
  · exact C4_me_unauthorized_cases.2.2.2
      [⟨"u1", "a@x.com", some "A"⟩, ⟨"u2", "b@x.com", some "B"⟩] "u1"
      ⟨"u1", "a@x.com", some "A"⟩ (by decide) (by decide)

/-- C9: the `/api/me` response model requires `name` to be a string, so
the endpoint succeeds only when the resolved user's stored name is
non-null: every successful response comes from a found user whose name is
`some` of the returned name; for a user row with a null name (as the
exchange creates when the provider reports no name claim) a valid token
for that user yields a response-validation failure, never a success. -/
theorem C9_me_requires_nonnull_name :
    (∀ (outcome : DecodeOutcome) (users : List User) (r : UserResponse),
        me_endpoint outcome users = .ok r →
        ∃ uid u, outcome = .success (some uid) ∧
          users.find? (fun x => x.id == uid) = some u ∧
          u.name = some r.name ∧ r.id = u.id ∧ r.email = u.email) ∧
    (∀ (users : List User) (uid : String) (u : User), uid ≠ "" →
        users.find? (fun x => x.id == uid) = some u → u.name = none →
        me_endpoint (.success (some uid)) users = .error 500) ∧
    (∀ (users : List User) (e newId : String), e ≠ "" →
        users.find? (fun u => u.email == e) = none →
        exchange_microsoft_token users (some e) none newId
          = .ok (users ++ [⟨newId, e, none⟩], ⟨newId, e, none⟩)) := by
  refine ⟨?_, ?_, ?_⟩
  · intro outcome users r h
    rcases outcome with _ | sub
    · simp [me_endpoint, me_handler, get_current_user] at h
    · rcases sub with _ | uid
      · simp [me_endpoint, me_handler, get_current_user] at h
      · by_cases huid : uid = ""
        · simp [me_endpoint, me_handler, get_current_user, huid] at h
        · rcases hfind : users.find? (fun x => x.id == uid) with _ | u
          · simp [me_endpoint, me_handler, get_current_user, huid, hfind] at h
          · rcases hname : u.name with _ | n
            · simp [me_endpoint, me_handler, get_current_user,
                validateUserResponse, huid, hfind, hname] at h
            · simp [me_endpoint, me_handler, get_current_user,
                validateUserResponse, huid, hfind, hname] at h
              exact ⟨uid, u, rfl, hfind, by simp [hname, ← h], by rw [← h],
                by rw [← h]⟩
  · intro users uid u huid hfind hname
    simp [me_endpoint, me_handler, get_current_user, validateUserResponse,
      huid, hfind, hname]
  · intro users e newId he hfind
    simp [exchange_microsoft_token, he, hfind]

theorem C9_me_requires_nonnull_name_witness :
    me_endpoint (.success (some "u9")) [⟨"u9", "c@x.com", none⟩]
      = .error 500 ∧
    exchange_microsoft_token [] (some "c@x.com") none "u9"
      = .ok ([⟨"u9", "c@x.com", none⟩], ⟨"u9", "c@x.com", none⟩) := by
  constructor
  · exact C9_me_requires_nonnull_name.2.1 [⟨"u9", "c@x.com", none⟩] "u9"
      ⟨"u9", "c@x.com", none⟩ (by decide) (by decide) rfl
  · exact C9_me_requires_nonnull_name.2.2 [] "c@x.com" "u9" (by decide) rfl

/-- C10: on an existing post, `add_reaction` answers status 201 in both
branches — when a stored (post, user, case-insensitive label) match is
returned unchanged and when a fresh row is inserted — so the status code
never distinguishes the two. -/
theorem C10_add_reaction_always_201 :
    ∀ (db : DB) (pid : Nat) (u l : String) (p : Post),
      findPost db pid = some p →
      (add_reaction db pid u l).2.statusCode = 201 ∧
      (∀ ex, db.reactions.find? (matchesReaction pid u l) = some ex →
          add_reaction db pid u l = (db, .ok 201 ex)) ∧
      (db.reactions.find? (matchesReaction pid u l) = none →
          add_reaction db pid u l
            = ({ db with
                  reactions := db.reactions ++ [⟨db.nextId, pid, u, some l⟩]
                  nextId := db.nextId + 1 },
               .ok 201 ⟨db.nextId, pid, u, some l⟩)) := by
  intro db pid u l p hp
  refine ⟨?_, ?_, ?_⟩
  · rcases hfind : db.reactions.find? (matchesReaction pid u l) with _ | ex
    · simp [add_reaction, hp, hfind, HttpResult.statusCode]
    · simp [add_reaction, hp, hfind, HttpResult.statusCode]
  · intro ex hfind
    simp [add_reaction, hp, hfind]
  · intro hfind
    simp [add_reaction, hp, hfind]

/-- A store with one post (id 1) and one stored like by user `A`, used to
exercise both `add_reaction` branches. -/
def dbOnePostOneLike : DB :=
  ⟨[⟨1, "t", none, "auth", none, 10, 10⟩], [],
   [⟨5, 1, "A", some "like"⟩], [], [], [], 6⟩

theorem C10_add_reaction_always_201_witness :
    (add_reaction dbOnePostOneLike 1 "A" "LIKE").2.statusCode = 201 ∧
    (add_reaction dbOnePostOneLike 1 "B" "wow").2.statusCode = 201 := by
  constructor
  · exact (C10_add_reaction_always_201 dbOnePostOneLike 1 "A" "LIKE"
      ⟨1, "t", none, "auth", none, 10, 10⟩ (by decide)).1
  · exact (C10_add_reaction_always_201 dbOnePostOneLike 1 "B" "wow"
      ⟨1, "t", none, "auth", none, 10, 10⟩ (by decide)).1

/-- Every stored child row references a post of the store. -/
def refsOK (db : DB) : Prop :=
  (∀ r ∈ db.reactions, ∃ p ∈ db.posts, p.id = r.post_id) ∧
  (∀ r ∈ db.replies, ∃ p ∈ db.posts, p.id = r.post_id) ∧
  (∀ s ∈ db.shares, ∃ p ∈ db.posts, p.id = s.post_id) ∧
  (∀ v ∈ db.views, ∃ p ∈ db.posts, p.id = v.post_id)

theorem findPost_some_mem {db : DB} {pid : Nat} {p : Post}
    (h : findPost db pid = some p) : p ∈ db.posts ∧ p.id = pid := by
  unfold findPost at h
  refine ⟨List.mem_of_find?_eq_some h, ?_⟩
  have := List.find?_some h
  simpa using this

/-- C7: each of `add_reply`, `add_share`, `add_reaction` and `add_view`
first checks the target post and, when it does not exist, answers 404
leaving the store untouched; and each preserves the invariant that every
stored Reaction / Reply / Share / PostView row references an existing
post, so rows are only ever created against an existing post. -/
theorem C7_children_reference_existing_post :
    (∀ (db : DB) (pid : Nat) (u c : String), findPost db pid = none →
        add_reply db pid u c = (db, .err 404)) ∧
    (∀ (db : DB) (pid : Nat) (u : String) (pf : Option String),
        findPost db pid = none → add_share db pid u pf = (db, .err 404)) ∧
    (∀ (db : DB) (pid : Nat) (u l : String), findPost db pid = none →
        add_reaction db pid u l = (db, .err 404)) ∧
    (∀ (db : DB) (pid : Nat) (u : String), findPost db pid = none →
        add_view db pid u = (db, .err 404)) ∧
    (∀ (db : DB) (pid : Nat) (u c : String), refsOK db →
        refsOK (add_reply db pid u c).1) ∧
    (∀ (db : DB) (pid : Nat) (u : String) (pf : Option String), refsOK db →
        refsOK (add_share db pid u pf).1) ∧
    (∀ (db : DB) (pid : Nat) (u l : String), refsOK db →
        refsOK (add_reaction db pid u l).1) ∧
    (∀ (db : DB) (pid : Nat) (u : String), refsOK db →
        refsOK (add_view db pid u).1) := by
  refine ⟨?_, ?_, ?_, ?_, ?_, ?_, ?_, ?_⟩
  · intro db pid u c h; simp [add_reply, h]
  · intro db pid u pf h; simp [add_share, h]
  · intro db pid u l h; simp [add_reaction, h]
  · intro db pid u h; simp [add_view, h]
  · intro db pid u c hok
    rcases hp : findPost db pid with _ | p
    · simpa [add_reply, hp] using hok
    · obtain ⟨hmem, hid⟩ := findPost_some_mem hp
      obtain ⟨h1, h2, h3, h4⟩ := hok
      refine ⟨by simpa [add_reply, hp] using h1, ?_,
        by simpa [add_reply, hp] using h3, by simpa [add_reply, hp] using h4⟩
      intro r hr
      simp only [add_reply, hp, List.mem_append, List.mem_singleton] at hr
      rcases hr with hr | hr
      · simpa [add_reply, hp] using h2 r hr
      · subst hr
        exact ⟨p, by simpa [add_reply, hp] using hmem, hid⟩
  · intro db pid u pf hok
    rcases hp : findPost db pid with _ | p
    · simpa [add_share, hp] using hok
    · obtain ⟨hmem, hid⟩ := findPost_some_mem hp
      obtain ⟨h1, h2, h3, h4⟩ := hok
      refine ⟨by simpa [add_share, hp] using h1,
        by simpa [add_share, hp] using h2, ?_,
        by simpa [add_share, hp] using h4⟩
      intro s hs
      simp only [add_share, hp, List.mem_append, List.mem_singleton] at hs
      rcases hs with hs | hs
      · simpa [add_share, hp] using h3 s hs
      · subst hs
        exact ⟨p, by simpa [add_share, hp] using hmem, hid⟩
  · intro db pid u l hok
    rcases hp : findPost db pid with _ | p
    · simpa [add_reaction, hp] using hok
    · rcases hfind : db.reactions.find? (matchesReaction pid u l) with _ | ex
      · obtain ⟨hmem, hid⟩ := findPost_some_mem hp
        obtain ⟨h1, h2, h3, h4⟩ := hok
        refine ⟨?_, by simpa [add_reaction, hp, hfind] using h2,
          by simpa [add_reaction, hp, hfind] using h3,
          by simpa [add_reaction, hp, hfind] using h4⟩
        intro r hr
        simp only [add_reaction, hp, hfind, List.mem_append,
          List.mem_singleton] at hr
        rcases hr with hr | hr
        · simpa [add_reaction, hp, hfind] using h1 r hr
        · subst hr
          exact ⟨p, by simpa [add_reaction, hp, hfind] using hmem, hid⟩
      · simpa [add_reaction, hp, hfind] using hok
  · intro db pid u hok
    rcases hp : findPost db pid with _ | p
    · simpa [add_view, hp] using hok
    · obtain ⟨hmem, hid⟩ := findPost_some_mem hp
      obtain ⟨h1, h2, h3, h4⟩ := hok
      refine ⟨by simpa [add_view, hp] using h1,
        by simpa [add_view, hp] using h2,
        by simpa [add_view, hp] using h3, ?_⟩
      intro v hv
      simp only [add_view, hp, List.mem_append, List.mem_singleton] at hv
      rcases hv with hv | hv
      · simpa [add_view, hp] using h4 v hv
      · subst hv
        exact ⟨p, by simpa [add_view, hp] using hmem, hid⟩

theorem C7_children_reference_existing_post_witness :
    add_reply ⟨[], [], [], [], [], [], 1⟩ 7 "A" "hi"
      = (⟨[], [], [], [], [], [], 1⟩, .err 404) ∧
    add_view ⟨[], [], [], [], [], [], 1⟩ 7 "A"
      = (⟨[], [], [], [], [], [], 1⟩, .err 404) := by
  constructor
  · exact C7_children_reference_existing_post.1 ⟨[], [], [], [], [], [], 1⟩
      7 "A" "hi" rfl
  · exact C7_children_reference_existing_post.2.2.2.1
      ⟨[], [], [], [], [], [], 1⟩ 7 "A" rfl

/-- Two reactions collide when they sit on the same post, come from the
same user, and carry stored (non-null) labels that agree up to case. -/
def reactionTripleFree (a b : Reaction) : Prop :=
  ¬ (a.post_id = b.post_id ∧ a.user = b.user ∧
     ∃ s t, a.reaction = some s ∧ b.reaction = some t ∧ lowerStr s = lowerStr t)

/-- At most one stored reaction per (post, user, case-insensitive label)
triple. -/
def reactionKeysUnique (rs : List Reaction) : Prop :=
  rs.Pairwise reactionTripleFree

/-- C3: a second add-reaction request with the same post, the same user
and a case-insensitively equal label returns exactly the first request's
reaction (same id) and leaves the store unchanged; and `add_reaction`
preserves uniqueness of (post, user, case-insensitive label) among stored
rows. -/
theorem C3_add_reaction_dedup :
    (∀ (db : DB) (pid : Nat) (u l₁ l₂ : String) (db₁ : DB) (r₁ : Reaction),
        lowerStr l₁ = lowerStr l₂ →
        add_reaction db pid u l₁ = (db₁, .ok 201 r₁) →
        add_reaction db₁ pid u l₂ = (db₁, .ok 201 r₁)) ∧
    (∀ (db : DB) (pid : Nat) (u l : String),
        reactionKeysUnique db.reactions →
        reactionKeysUnique (add_reaction db pid u l).1.reactions) := by
  constructor
  · intro db pid u l₁ l₂ db₁ r₁ hl h
    have hpred : matchesReaction pid u l₂ = matchesReaction pid u l₁ := by
      funext r
      unfold matchesReaction
      rw [← hl]
    rcases hp : findPost db pid with _ | p
    · simp [add_reaction, hp] at h
    · rcases hfind : db.reactions.find? (matchesReaction pid u l₁) with _ | ex
      · -- fresh insert on the first request
        simp only [add_reaction, hp, hfind, Prod.mk.injEq] at h
        obtain ⟨hdb, hr⟩ := h
        have hr' : r₁ = ⟨db.nextId, pid, u, some l₁⟩ := by
          cases hr
          rfl
        have hposts : db₁.posts = db.posts := by rw [← hdb]
        have hreacts : db₁.reactions
            = db.reactions ++ [⟨db.nextId, pid, u, some l₁⟩] := by
          rw [← hdb]
        have hp' : findPost db₁ pid = some p := by
          unfold findPost
          rw [hposts]
          exact hp
        have hfind' : db₁.reactions.find? (matchesReaction pid u l₂)
            = some ⟨db.nextId, pid, u, some l₁⟩ := by
          rw [hpred, hreacts, List.find?_append, hfind]
          simp [matchesReaction]
        simp [add_reaction, hp', hfind', hr']
      · -- duplicate hit on the first request
        simp only [add_reaction, hp, hfind, Prod.mk.injEq] at h
        obtain ⟨hdb, hr⟩ := h
        have hr' : r₁ = ex := by
          cases hr
          rfl
        cases hdb
        simp [add_reaction, hp, hpred, hfind, hr']
  · intro db pid u l hU
    rcases hp : findPost db pid with _ | p
    · simpa [add_reaction, hp] using hU
    · rcases hfind : db.reactions.find? (matchesReaction pid u l) with _ | ex
      · have hnone := List.find?_eq_none.mp hfind
        simp only [add_reaction, hp, hfind]
        rw [reactionKeysUnique, List.pairwise_append]
        refine ⟨hU, by simp, ?_⟩
        intro a ha b hb
        simp only [List.mem_singleton] at hb
        subst hb
        rintro ⟨hpid, huser, s, t, hs, ht, hlow⟩
        have ht' : t = l := by
          simpa using ht.symm
        have h1 : (a.post_id == pid) = true := by simpa using hpid
        have h2 : (a.user == u) = true := by simpa using huser
        have h3 : lowerStr s = lowerStr l := ht' ▸ hlow
        have hmatch : matchesReaction pid u l a = true := by
          unfold matchesReaction
          rw [hs]
          simp [h1, h2, h3]
        exact hnone a ha hmatch
      · simpa [add_reaction, hp, hfind] using hU

theorem C3_add_reaction_dedup_witness :
    add_reaction
        ⟨[⟨1, "t", none, "auth", none, 10, 10⟩], [],
         [⟨6, 1, "A", some "Like"⟩], [], [], [], 7⟩
        1 "A" "LIKE"
      = (⟨[⟨1, "t", none, "auth", none, 10, 10⟩], [],
          [⟨6, 1, "A", some "Like"⟩], [], [], [], 7⟩,
         .ok 201 ⟨6, 1, "A", some "Like"⟩) ∧
    reactionKeysUnique
      (add_reaction
        ⟨[⟨1, "t", none, "auth", none, 10, 10⟩], [], [], [], [], [], 6⟩
        1 "A" "Like").1.reactions := by
  constructor
  · exact C3_add_reaction_dedup.1
      ⟨[⟨1, "t", none, "auth", none, 10, 10⟩], [], [], [], [], [], 6⟩
      1 "A" "Like" "LIKE"
      ⟨[⟨1, "t", none, "auth", none, 10, 10⟩], [],
       [⟨6, 1, "A", some "Like"⟩], [], [], [], 7⟩
      ⟨6, 1, "A", some "Like"⟩ (by decide) (by decide)
  · exact C3_add_reaction_dedup.2
      ⟨[⟨1, "t", none, "auth", none, 10, 10⟩], [], [], [], [], [], 6⟩
      1 "A" "Like" List.Pairwise.nil

/-- A store with three posts (ids 1, 2, 3) whose creation times are 10,
30, 20 — post 2 is the most recently created. -/
def dbThreePosts : DB :=
  ⟨[⟨1, "t1", none, "a", none, 10, 10⟩,
    ⟨2, "t2", none, "a", none, 30, 30⟩,
    ⟨3, "t3", none, "a", none, 20, 20⟩], [], [], [], [], [], 4⟩

/-- C5: for every store and every skip/limit pair, `list_posts` reports
`total` as the size of the whole posts table (independent of the page),
returns at most `limit` posts, takes the page as the `[skip, skip+limit)`
window of the posts sorted by descending creation time, and the page is
ordered by descending creation time; on the three-post store, skip 0 and
limit 1 return total 3 and exactly the most recently created post. -/
theorem C5_list_pagination :
    (∀ (db : DB) (skip limit : Nat),
        (list_posts db skip limit).total = db.posts.length ∧
        (list_posts db skip limit).posts.length ≤ limit ∧
        (list_posts db skip limit).posts.map PostResponse.id
          = (((sortPostsDesc db.posts).drop skip).take limit).map Post.id ∧
        (list_posts db skip limit).posts.Pairwise
          (fun a b => b.created_at ≤ a.created_at)) ∧
    (list_posts dbThreePosts 0 1).total = 3 ∧
    (list_posts dbThreePosts 0 1).posts.map PostResponse.id = [2] := by
  refine ⟨fun db skip limit => ⟨rfl, ?_, ?_, ?_⟩, by decide, by decide⟩
  · simp only [list_posts, List.length_map]
    exact List.length_take_le _ _
  · simp only [list_posts, List.map_map]
    rfl
  · have hsorted : (sortPostsDesc db.posts).Pairwise
        (fun a b => b.created_at ≤ a.created_at) :=
      List.sorted_insertionSort _ _
    have hsub : (((sortPostsDesc db.posts).drop skip).take limit).Sublist
        (sortPostsDesc db.posts) :=
      (List.take_sublist _ _).trans (List.drop_sublist _ _)
    have hpair := List.Pairwise.sublist hsub hsorted
    simp only [list_posts]
    exact hpair.map _ (fun a b h => h)

theorem find?_map_update {ps : List Post} {pid : Nat} {p p' : Post}
    (hfind : ps.find? (fun q => q.id == pid) = some p)
    (hid : p'.id = p.id) :
    (ps.map (fun q => if q.id == pid then p' else q)).find?
      (fun q => q.id == pid) = some p' := by
  induction ps with
  | nil => simp at hfind
  | cons x xs ih =>
    by_cases hx : (x.id == pid) = true
    · have hpx : p = x := by
        simp only [List.find?_cons, hx] at hfind
        exact (Option.some.inj hfind).symm
      have h1 : x.id = pid := by simpa using hx
      have hp' : (p'.id == pid) = true := by simp [hid, hpx, h1]
      have hhead : (if (x.id == pid) = true then p' else x) = p' := by
        simp [hx]
      simp only [List.map_cons, hhead, List.find?_cons, hp']
    · have hx' : (x.id == pid) = false := by simpa using hx
      have hhead : (if (x.id == pid) = true then p' else x) = x := by
        simp [hx']
      simp only [List.find?_cons, hx'] at hfind
      simp only [List.map_cons, List.find?_cons, hx', Bool.false_eq_true,
        if_false]
      exact ih hfind

/-- C6: a successful update changes only the provided fields — an omitted
title/description/announce-type keeps its old value and a provided one
replaces it — never touches id, author or the timestamps, leaves every
other post in place, appends exactly one attachment row per uploaded file
(all owned by the updated post) while keeping every previously stored
attachment, and leaves the reaction/reply/share/view tables unchanged. -/
theorem C6_update_partial_frame :
    ∀ (db : DB) (pid : Nat) (t d a : Option String)
      (files : List UploadFile) (db' : DB) (r : PostResponse) (p : Post),
      findPost db pid = some p →
      update_post db pid t d a files = .ok (db', r) →
      (∃ p', findPost db' pid = some p' ∧
        p'.id = p.id ∧ p'.author = p.author ∧
        p'.created_at = p.created_at ∧ p'.updated_at = p.updated_at ∧
        (t = none → p'.title = p.title) ∧
        (∀ s, t = some s → p'.title = s) ∧
        (d = none → p'.description = p.description) ∧
        (∀ s, d = some s → p'.description = some s) ∧
        (a = none → p'.announce_type = p.announce_type) ∧
        (∀ s, a = some s → p'.announce_type = some s)) ∧
      (∀ q ∈ db.posts, q.id ≠ pid → q ∈ db'.posts) ∧
      (∃ new, db'.attachments = db.attachments ++ new ∧
        new.length = files.length ∧ ∀ att ∈ new, att.post_id = pid) ∧
      db'.reactions = db.reactions ∧ db'.replies = db.replies ∧
      db'.shares = db.shares ∧ db'.views = db.views := by
  intro db pid t d a files db' r p hp h
  simp only [update_post, hp, Except.ok.injEq, Prod.mk.injEq] at h
  obtain ⟨hdb, hr⟩ := h
  subst hdb
  refine ⟨?_, ?_, ?_, rfl, rfl, rfl, rfl⟩
  · refine ⟨{ p with
        title := t.getD p.title
        description := d.or p.description
        announce_type := a.or p.announce_type },
      find?_map_update hp rfl, rfl, rfl, rfl, rfl, ?_, ?_, ?_, ?_, ?_, ?_⟩
    · intro ht; rw [ht]; rfl
    · intro s hs; rw [hs]; rfl
    · intro hd; rw [hd]; rfl
    · intro s hs; rw [hs]; rfl
    · intro ha; rw [ha]; rfl
    · intro s hs; rw [hs]; rfl
  · intro q hq hqid
    refine List.mem_map.mpr ⟨q, hq, ?_⟩
    simp [hqid]
  · refine ⟨files.enum.map
      (fun e => attachmentOfUpload pid (db.nextId + e.1) e.2), rfl, ?_, ?_⟩
    · simp [List.enum_length]
    · intro att hatt
      obtain ⟨e, _, hatt⟩ := List.mem_map.mp hatt
      rw [← hatt]
      rfl

/-- A one-post store for exercising `update_post`. -/
def dbC6 : DB :=
  ⟨[⟨1, "old", none, "auth", none, 10, 11⟩], [], [], [], [], [], 6⟩

/-- The store after updating post 1's title to "new". -/
def dbC6up : DB :=
  ⟨[⟨1, "new", none, "auth", none, 10, 11⟩], [], [], [], [], [], 6⟩

/-- The response of that update. -/
def rC6 : PostResponse :=
  { id := 1, title := "new", description := none, author := "auth"
    announce_type := none, created_at := 10, updated_at := 11
    attachments := [], reactions := [], views_count := 0 }

theorem C6_update_partial_frame_witness :
    dbC6up.reactions = dbC6.reactions ∧ dbC6up.views = dbC6.views := by
  have h := C6_update_partial_frame dbC6 1 (some "new") none none []
    dbC6up rC6 ⟨1, "old", none, "auth", none, 10, 11⟩ (by decide) rfl
  exact ⟨h.2.2.2.1, h.2.2.2.2.2.2⟩

/-- A store whose post 1 has one like reaction, one reply and one view —
engagement the update response's defaults do not reflect. -/
def dbC8 : DB :=
  ⟨[⟨1, "t", none, "a", none, 10, 10⟩], [],
   [⟨2, 1, "A", some "like"⟩], [⟨3, 1, "B", "hi"⟩], [],
   [⟨4, 1, "A", none⟩], 5⟩

/-- The liked-users list carried by a get-post outcome. -/
def getLikedUsers : Except Nat PostResponse → Option (List String)
  | .ok r => some r.liked_users
  | .error _ => none

/-- The liked-users list carried by an update-post outcome. -/
def updLikedUsers : Except Nat (DB × PostResponse) → Option (List String)
  | .ok x => some x.2.liked_users
  | .error _ => none

/-- C8 fails as stated: on `dbC8` the get response lists user A as a
liker, while the update response (which passes no liked-users value to
the schema) carries the default empty list — the same stored state, two
different response values. -/
theorem C8_counterexample :
    getLikedUsers (get_post dbC8 1) = some ["A"] ∧
    updLikedUsers (update_post dbC8 1 none none none []) = some [] ∧
    (["A"] : List String) ≠ [] := by
  refine ⟨by decide, ?_, by decide⟩
  rfl

theorem find?_id_of_mem_nodup {ps : List Post} {p : Post}
    (hnd : (ps.map Post.id).Nodup) (hm : p ∈ ps) :
    ps.find? (fun q => q.id == p.id) = some p := by
  induction ps with
  | nil => cases hm
  | cons x xs ih =>
    simp only [List.map_cons, List.nodup_cons] at hnd
    rcases List.mem_cons.mp hm with h | h
    · subst h
      simp [List.find?_cons]
    · have hxid : (x.id == p.id) = false := by
        have hpin : p.id ∈ xs.map Post.id := List.mem_map_of_mem _ h
        have : x.id ≠ p.id := fun he => hnd.1 (he ▸ hpin)
        simpa using this
      simp only [List.find?_cons, hxid]
      exact ih hnd.2 h

/-- C8 amended: get, list and update project the same response shape, and
for the same stored state the update response agrees with the get
response (taken against the updated store) on identity, content fields,
attachments, reactions and the views count — but update leaves the
replies/shares counts and the liked-users/seen-by lists at the schema
defaults (0 and empty), so those four fields need not match get/list for
posts with such engagement; get and list themselves project identical
responses for every listed post (given distinct post ids). -/
theorem C8_amended_update_projection :
    (∀ (db : DB) (pid : Nat) (t d a : Option String)
        (files : List UploadFile) (db' : DB) (ru rg : PostResponse),
        update_post db pid t d a files = .ok (db', ru) →
        get_post db' pid = .ok rg →
        ru.id = rg.id ∧ ru.title = rg.title ∧
        ru.description = rg.description ∧ ru.author = rg.author ∧
        ru.announce_type = rg.announce_type ∧
        ru.created_at = rg.created_at ∧ ru.updated_at = rg.updated_at ∧
        ru.attachments = rg.attachments ∧ ru.reactions = rg.reactions ∧
        ru.views_count = rg.views_count ∧
        ru.replies_count = 0 ∧ ru.shares_count = 0 ∧
        ru.liked_users = [] ∧ ru.seen_by = []) ∧
    (∀ (db : DB) (skip limit : Nat) (r : PostResponse),
        (db.posts.map Post.id).Nodup →
        r ∈ (list_posts db skip limit).posts →
        get_post db r.id = .ok r) := by
  constructor
  · intro db pid t d a files db' ru rg h1 h2
    rcases hp : findPost db pid with _ | p
    · simp [update_post, hp] at h1
    · simp only [update_post, hp, Except.ok.injEq, Prod.mk.injEq] at h1
      obtain ⟨hdb, hru⟩ := h1
      subst hdb
      subst hru
      have hp' := @find?_map_update db.posts pid p
        { p with
          title := t.getD p.title
          description := d.or p.description
          announce_type := a.or p.announce_type } hp rfl
      simp only [get_post, findPost, hp', Except.ok.injEq] at h2
      subst h2
      exact ⟨rfl, rfl, rfl, rfl, rfl, rfl, rfl, rfl, rfl, rfl, rfl, rfl,
        rfl, rfl⟩
  · intro db skip limit r hnd hr
    simp only [list_posts, List.mem_map] at hr
    obtain ⟨p, hpmem, hfp⟩ := hr
    have hsub : ((((sortPostsDesc db.posts).drop skip).take limit)).Sublist
        (sortPostsDesc db.posts) :=
      (List.take_sublist _ _).trans (List.drop_sublist _ _)
    have hpsorted : p ∈ sortPostsDesc db.posts := hsub.subset hpmem
    have hpin : p ∈ db.posts :=
      (List.perm_insertionSort _ db.posts).subset hpsorted
    have hfind : db.posts.find? (fun q => q.id == p.id) = some p :=
      find?_id_of_mem_nodup hnd hpin
    subst hfp
    simp only [get_post, findPost, hfind]

/-- The update response on `dbC8` (identity/content fields, attachments,
reactions and views count; defaults elsewhere). -/
def ruC8 : PostResponse :=
  { id := 1, title := "t", description := none, author := "a"
    announce_type := none, created_at := 10, updated_at := 10
    attachments := [], reactions := [⟨2, 1, "A", some "like"⟩]
    views_count := 1 }

/-- The get response on `dbC8`: same fields plus the computed engagement. -/
def rgC8 : PostResponse :=
  { id := 1, title := "t", description := none, author := "a"
    announce_type := none, created_at := 10, updated_at := 10
    attachments := [], reactions := [⟨2, 1, "A", some "like"⟩]
    views_count := 1, replies_count := 1, shares_count := 0
    liked_users := ["A"], seen_by := ["A"] }

theorem C8_amended_update_projection_witness :
    ruC8.views_count = rgC8.views_count ∧ ruC8.replies_count = 0 := by
  have h := C8_amended_update_projection.1 dbC8 1 none none none []
    dbC8 ruC8 rgC8 rfl rfl
  exact ⟨h.2.2.2.2.2.2.2.2.2.1, h.2.2.2.2.2.2.2.2.2.2.1⟩
